import Mathlib

/-!
Verification of the IRAS GST batch-checker core against its specification.

The definitions below are a shallow embedding of the Python sources
`batch_script_async.py`, `main.py` and `main_requests.py`: the sliding-window
rate limiter, the lookup client's error normalisation, the bounded-concurrency
batch dispatcher, and the result projector that merges lookup results back
onto the input table.  Call timestamps are modelled as integers (seconds);
the limiter compares and subtracts them exactly as the source does.
-/

/-! ## Rate limiter (batch_script_async.py, lines 22-49) -/

def RATE_LIMIT_MAX : Nat := 100

def RATE_LIMIT_WINDOW_SEC : Int := 3600

/-- One `deque(maxlen=RATE_LIMIT_MAX).append`: when the window already holds
`RATE_LIMIT_MAX` entries the oldest (front) entry is discarded. -/
def dequeAppend (s : List Int) (t : Int) : List Int :=
  if s.length < RATE_LIMIT_MAX then s ++ [t] else s.tail ++ [t]

/-- `record_call(now)`: `rate_ts.append(now or time.time())`.  The Python `or`
falls back to the wall clock when `now` is `None` *or* equal to `0.0` (both are
falsy), so the model takes the wall clock as an explicit parameter. -/
def record_call (clock : Int) (s : List Int) (now : Option Int) : List Int :=
  dequeAppend s (if now.getD 0 = 0 then clock else now.getD 0)

/-- The eviction loop of `allowed_calls_remaining`:
`while rate_ts and (now - rate_ts[0]) > RATE_LIMIT_WINDOW_SEC: rate_ts.popleft()`. -/
def evict (now : Int) : List Int → List Int
  | [] => []
  | t :: rest => if now - t > RATE_LIMIT_WINDOW_SEC then evict now rest else t :: rest

/-- `allowed_calls_remaining(now)`: evicts, then returns the evicted window
together with `RATE_LIMIT_MAX - len(rate_ts)`. -/
def allowed_calls_remaining (now : Int) (s : List Int) : List Int × Int :=
  (evict now s, (RATE_LIMIT_MAX : Int) - (evict now s).length)

/-- The window obtained by a sequence of `record_call(t)` calls starting from
the empty deque; the wall clock at each call is taken to be the recorded
timestamp itself. -/
def runRecords (ts : List Int) : List Int :=
  ts.foldl (fun s t => record_call t s (some t)) []

/-- Number of retained timestamps lying within `[now - WINDOW, now]`. -/
def countWindow (now : Int) (s : List Int) : Nat :=
  (s.filter (fun t => decide (now - RATE_LIMIT_WINDOW_SEC ≤ t ∧ t ≤ now))).length

/-! ## Dynamic JSON values

Response bodies are arbitrary JSON-like Python values (`resp.json()`, the
`{"raw": ...}` wrapper, or the `{"error": ...}` wrapper).  Objects are ordered
field lists; Python dict keys are unique, lookups take the first match. -/

mutual
inductive Json where
  | null
  | bool (b : Bool)
  | num (n : Int)
  | str (s : String)
  | arr (elems : JsonList)
  | obj (fields : JsonFields)
inductive JsonList where
  | nil
  | cons (head : Json) (tail : JsonList)
inductive JsonFields where
  | nil
  | cons (key : String) (val : Json) (tail : JsonFields)
end

deriving instance DecidableEq for Json, JsonList, JsonFields

/-- Python `dict.get(key, default)` on an object's field list. -/
def JsonFields.getD : JsonFields → String → Json → Json
  | .nil, _, d => d
  | .cons k v rest, key, d => if k = key then v else rest.getD key d

/-- Whether a JSON value is an object (`isinstance(body, dict)`). -/
def Json.isObj : Json → Bool
  | .obj _ => true
  | _ => false

mutual
/-- `json.dumps(body, ensure_ascii=False)` with the default separators.
Within the JSON value model serialisation is total, so the source's
`except`-fallback to `str(body)` is unreachable. -/
def dumps : Json → String
  | .null => "null"
  | .bool true => "true"
  | .bool false => "false"
  | .num n => toString n
  | .str s => "\x22" ++ s ++ "\x22"
  | .arr xs => "[" ++ dumpsList xs ++ "]"
  | .obj fs => "\x7b" ++ dumpsFields fs ++ "\x7d"
def dumpsList : JsonList → String
  | .nil => ""
  | .cons x .nil => dumps x
  | .cons x (.cons y rest) => dumps x ++ ", " ++ dumpsList (.cons y rest)
def dumpsFields : JsonFields → String
  | .nil => ""
  | .cons k v .nil => "\x22" ++ k ++ "\x22: " ++ dumps v
  | .cons k v (.cons k2 v2 rest) =>
      "\x22" ++ k ++ "\x22: " ++ dumps v ++ ", " ++ dumpsFields (.cons k2 v2 rest)
end

/-- Python `str()` of a cell value, as used by `astype(str)`. -/
def pyStr : Json → String
  | .null => "None"
  | .bool true => "True"
  | .bool false => "False"
  | .num n => toString n
  | .str s => s
  | .arr xs => "[" ++ dumpsList xs ++ "]"
  | .obj fs => "\x7b" ++ dumpsFields fs ++ "\x7d"

/-- Python `str.strip()`: drop leading and trailing whitespace. -/
def pyStrip (s : String) : String :=
  ⟨((s.data.dropWhile Char.isWhitespace).reverse.dropWhile Char.isWhitespace).reverse⟩

/-! ## Lookup client (IRASClient.search_gst_registered) -/

/-- The outcome of the single `session.post` exchange: either a response (with
HTTP status, content-type header, parsed JSON body and raw text) or a raised
transport exception (`aiohttp.ClientError` / `requests.RequestException` /
any other `Exception`), identified by its class name and message. -/
inductive HttpOutcome where
  | response (status : Int) (contentType : String) (body : Json) (text : String)
  | transportError (excName : String) (excMsg : String)

/-- `search_gst_registered`: on a response, parse the body as JSON when the
content type starts with `application/json`, else wrap the raw text; on any
raised exception return `(0, {"error": f"{e.__class__.__name__}: {e}"})`. -/
def search_gst_registered : HttpOutcome → Int × Json
  | .response st ct body text =>
      (st, if ct.startsWith "application/json" then body
           else Json.obj (.cons "raw" (.str text) .nil))
  | .transportError name msg =>
      (0, Json.obj (.cons "error" (.str (name ++ ": " ++ msg)) .nil))

/-! ## Batch dispatcher (batch_lookup, batch_script_async.py lines 138-161)

Small-step operational model of the asyncio execution: each input identifier
is one task; a `start i` step fires only when task `i` is still pending and
fewer than `C` tasks are running (the semaphore gate), and atomically performs
`record_call()` and launches the client call; a `finish i` step completes a
running task, appending its `(uen, status, body)` result.  A schedule is an
arbitrary list of such steps; invalid steps are no-ops. -/

inductive Phase where
  | pending
  | running
  | done
deriving DecidableEq

structure BatchState where
  phases : List Phase
  results : List (String × Int × Json)
  records : Nat
  invocations : Nat
deriving DecidableEq

inductive BatchAction where
  | start (i : Nat)
  | finish (i : Nat)

/-- Number of in-flight lookups. -/
def countRunning (ps : List Phase) : Nat :=
  ps.countP (fun p => p == Phase.running)

def initState (uens : List String) : BatchState :=
  ⟨uens.map (fun _ => Phase.pending), [], 0, 0⟩

/-- The per-identifier result tuple `(uen, status, body)` collected by
`_fetch` / `_one`. -/
def entryOf (oracle : String → Int × Json) (uens : List String) (i : Nat) :
    String × Int × Json :=
  (uens.getD i "", (oracle (uens.getD i "")).1, (oracle (uens.getD i "")).2)

def batchStep (C : Nat) (uens : List String) (oracle : String → Int × Json)
    (s : BatchState) : BatchAction → BatchState
  | .start i =>
      if s.phases.getD i Phase.done = Phase.pending ∧ countRunning s.phases < C then
        { s with phases := s.phases.set i Phase.running,
                 records := s.records + 1,
                 invocations := s.invocations + 1 }
      else s
  | .finish i =>
      if s.phases.getD i Phase.pending = Phase.running then
        { s with phases := s.phases.set i Phase.done,
                 results := s.results ++ [entryOf oracle uens i] }
      else s

def runBatch (C : Nat) (uens : List String) (oracle : String → Int × Json)
    (sched : List BatchAction) : BatchState :=
  sched.foldl (batchStep C uens oracle) (initState uens)

/-- The dispatcher has returned: every task completed (`asyncio.gather` is a
full barrier). -/
def completedAll (s : BatchState) : Prop :=
  ∀ p ∈ s.phases, p = Phase.done

instance (s : BatchState) : Decidable (completedAll s) :=
  List.decidableBAll _ _

/-! ## Result projector (process_batch_results, batch_script_async.py 103-135) -/

/-- The `out_map` loop: first result wins for duplicate identifiers. -/
def out_mapOf (results : List (String × Int × Json)) : List (String × Int × Json) :=
  results.foldl
    (fun m r => if (List.lookup r.1 m).isSome then m else m ++ [r]) []

/-- `extract_row(uen)`.  The `data` chain `body.get("data", {}).get(...)` is
only safe when the `data` value is itself a dict; on any other present value
Python raises `AttributeError`, modelled as `Except.error`. -/
def extract_row (m : List (String × Int × Json)) (uen : String) :
    Except String (Json × Json × String) :=
  match List.lookup uen m with
  | none => .ok (.str "", .str "", "")
  | some (_, body) =>
      let return_code : Json :=
        match body with
        | .obj fs => fs.getD "returnCode" (.str "")
        | _ => .str ""
      match body with
      | .obj fs =>
          match fs.getD "data" (.obj .nil) with
          | .obj dfs => .ok (return_code, dfs.getD "registrationId" (.str ""), dumps body)
          | _ => .error "AttributeError"
      | _ => .ok (return_code, .str "", dumps body)

/-- `extract_row` mapped over the stripped first-column values, failing as the
list comprehension does on the first raised exception. -/
def extractAll (m : List (String × Int × Json)) :
    List String → Except String (List (Json × Json × String))
  | [] => .ok []
  | u :: rest => do
      let t ← extract_row m u
      let ts ← extractAll m rest
      .ok (t :: ts)

/-- A pandas DataFrame, modelled as its ordered list of named columns. -/
structure DataFrame where
  cols : List (String × List Json)
deriving DecidableEq

deriving instance DecidableEq for Except

/-- `df[name]`: the first column carrying `name` (`KeyError` if none). -/
def getCol (df : DataFrame) (name : String) : Option (List Json) :=
  (df.cols.find? (fun c => c.1 == name)).map (fun c => c.2)

/-- One column of `df[[...]] = data`: replace the values of every column
already named `name`, else append a new column at the end. -/
def setCol (df : DataFrame) (name : String) (vals : List Json) : DataFrame :=
  if df.cols.any (fun c => c.1 == name) then
    ⟨df.cols.map (fun c => if c.1 == name then (c.1, vals) else c)⟩
  else
    ⟨df.cols ++ [(name, vals)]⟩

/-- `process_batch_results(df_in, col_a_name, results)`. -/
def process_batch_results (df : DataFrame) (col_a : String)
    (results : List (String × Int × Json)) : Except String DataFrame := do
  let col ← match getCol df col_a with
    | some c => Except.ok c
    | none => Except.error "KeyError"
  let uens := col.map (fun c => pyStrip (pyStr c))
  let triples ← extractAll (out_mapOf results) uens
  let statuses := triples.map (fun t => t.1)
  let regids := triples.map (fun t => t.2.1)
  let jsons := triples.map (fun t => Json.str t.2.2)
  Except.ok (setCol (setCol (setCol df "response-status" statuses)
      "response-registrationId" regids) "json-response" jsons)

/-- `main_async` lines 215-217: the dispatched identifiers are the first
column's values converted to `str`, stripped, with empty strings filtered out. -/
def dispatch_uens (cells : List Json) : List String :=
  (cells.map (fun c => pyStrip (pyStr c))).filter (fun u => !(u == ""))

/-- Indices of completed tasks. -/
def doneIdx (ps : List Phase) : List Nat :=
  (List.range ps.length).filter (fun i => ps.getD i Phase.pending == Phase.done)

/-- Modelled from the spec: the per-row return-code, "extracted from the
body's `returnCode` field if the body is structured data, else empty". -/
def returnCodeOf (m : List (String × Int × Json)) (uen : String) : Json :=
  match List.lookup uen m with
  | some (_, Json.obj fs) => fs.getD "returnCode" (.str "")
  | _ => .str ""

/-- Modelled from the spec: the per-row registration-id, "extracted from a
nested `data.registrationId` field if present, else empty". -/
def regIdOf (m : List (String × Int × Json)) (uen : String) : Json :=
  match List.lookup uen m with
  | some (_, Json.obj fs) =>
      match fs.getD "data" (.obj .nil) with
      | .obj dfs => dfs.getD "registrationId" (.str "")
      | _ => .str ""
  | _ => .str ""

/-- Modelled from the spec: the per-row serialized body (empty for a row with
no corresponding result). -/
def serializedOf (m : List (String × Int × Json)) (uen : String) : String :=
  match List.lookup uen m with
  | some (_, body) => dumps body
  | none => ""

/-- Whether the row's looked-up body, when it is a dict carrying a `data`
field, carries it as a dict — the condition under which the source's
`body.get("data", {}).get("registrationId", "")` chain does not raise. -/
def dataFieldIsDict (m : List (String × Int × Json)) (uen : String) : Bool :=
  match List.lookup uen m with
  | some (_, Json.obj fs) => (fs.getD "data" (.obj .nil)).isObj
  | _ => true

/-- Whether a column name is one of the three response columns written by
`process_batch_results`. -/
def isRespCol (name : String) : Bool :=
  name == "response-status" || name == "response-registrationId" ||
    name == "json-response"

/-- C5 counterexample fixture: a result whose body carries `data` as a
non-dict value. -/
def resCE5 : List (String × Int × Json) :=
  [("u", 200, Json.obj (.cons "data" (.num 5) .nil))]

/-- C5 witness fixture: a well-shaped body. -/
def resW5 : List (String × Int × Json) :=
  [("u", 200, Json.obj (.cons "returnCode" (.num 10)
      (.cons "data" (.obj (.cons "registrationId" (.str "X1") .nil)) .nil)))]

/-- C7 counterexample fixture: an input table that already carries a column
named `response-status`. -/
def dfCE7 : DataFrame := ⟨[("response-status", [Json.str "x"])]⟩

/-- C7/C8 witness fixture: a one-column input table of identifiers. -/
def dfW : DataFrame := ⟨[("id", [Json.str " a ", Json.str "zz"])]⟩

/-- C7/C8 witness fixture: results for the stripped identifier `a` only. -/
def resW : List (String × Int × Json) :=
  [("a", 200, Json.obj (.cons "returnCode" (.num 10) .nil))]

/-- C8 counterexample fixture: an input table whose first column is named
`json-response`. -/
def dfCE8 : DataFrame := ⟨[("json-response", [Json.str "A"])]⟩

/-- C8 counterexample fixture: a result for the identifier `A`. -/
def resCE8 : List (String × Int × Json) := [("A", 10, Json.obj .nil)]

/-- C7 witness fixture: the expected output for `dfW` processed against
`resW`. -/
def outW : DataFrame :=
  ⟨[("id", [Json.str " a ", Json.str "zz"]),
    ("response-status", [Json.num 10, Json.str ""]),
    ("response-registrationId", [Json.str "", Json.str ""]),
    ("json-response", [Json.str "\x7b\x22returnCode\x22: 10\x7d", Json.str ""])]⟩

/-- C10 witness fixture: a constant lookup oracle. -/
def oracleW : String → Int × Json := fun _ => (200, Json.null)

/-! ## Helper lemmas -/

theorem foldl_invariant {σ α : Type _} (P : σ → Prop) (f : σ → α → σ)
    (hstep : ∀ s a, P s → P (f s a)) :
    ∀ (l : List α) (s : σ), P s → P (l.foldl f s) := by
  intro l
  induction l with
  | nil => intro s hs; exact hs
  | cons a t ih => intro s hs; exact ih (f s a) (hstep s a hs)

theorem record_call_self (s : List Int) (t : Int) :
    record_call t s (some t) = dequeAppend s t := by
  simp [record_call]

theorem length_dequeAppend_le (s : List Int) (t : Int)
    (h : s.length ≤ RATE_LIMIT_MAX) : (dequeAppend s t).length ≤ RATE_LIMIT_MAX := by
  unfold dequeAppend
  split
  · simp only [List.length_append, List.length_singleton]
    omega
  · simp only [List.length_append, List.length_singleton, List.length_tail]
    simp only [RATE_LIMIT_MAX] at *
    omega

theorem mem_dequeAppend (s : List Int) (t x : Int) (h : x ∈ dequeAppend s t) :
    x ∈ s ∨ x = t := by
  unfold dequeAppend at h
  split at h <;> simp at h <;>
    rcases h with h | h
  · exact Or.inl h
  · exact Or.inr h
  · exact Or.inl (List.mem_of_mem_tail h)
  · exact Or.inr h

theorem pairwise_dequeAppend (s : List Int) (t : Int)
    (hs : s.Pairwise (· ≤ ·)) (ht : ∀ x ∈ s, x ≤ t) :
    (dequeAppend s t).Pairwise (· ≤ ·) := by
  unfold dequeAppend
  split
  · rw [List.pairwise_append]
    refine ⟨hs, List.pairwise_singleton _ _, ?_⟩
    intro x hx y hy
    simp at hy
    subst hy
    exact ht x hx
  · rw [List.pairwise_append]
    refine ⟨hs.tail, List.pairwise_singleton _ _, ?_⟩
    intro x hx y hy
    simp at hy
    subst hy
    exact ht x (List.mem_of_mem_tail hx)

theorem runRecords_fold_inv (ts : List Int) :
    ∀ s : List Int, s.Pairwise (· ≤ ·) → s.length ≤ RATE_LIMIT_MAX →
    ts.Pairwise (· ≤ ·) → (∀ x ∈ s, ∀ t ∈ ts, x ≤ t) →
    (List.foldl (fun s t => record_call t s (some t)) s ts).Pairwise (· ≤ ·) ∧
    (List.foldl (fun s t => record_call t s (some t)) s ts).length ≤ RATE_LIMIT_MAX ∧
    (∀ x ∈ List.foldl (fun s t => record_call t s (some t)) s ts, x ∈ s ∨ x ∈ ts) := by
  induction ts with
  | nil =>
      intro s h1 h2 _ _
      exact ⟨h1, h2, fun x hx => Or.inl hx⟩
  | cons t rest ih =>
      intro s h1 h2 h3 h4
      have hcross : ∀ x ∈ s, x ≤ t := fun x hx => h4 x hx t (List.mem_cons_self t rest)
      have hstep : record_call t s (some t) = dequeAppend s t := record_call_self s t
      rw [List.foldl_cons, hstep]
      have h1' : (dequeAppend s t).Pairwise (· ≤ ·) := pairwise_dequeAppend s t h1 hcross
      have h2' : (dequeAppend s t).length ≤ RATE_LIMIT_MAX := length_dequeAppend_le s t h2
      have h3' : rest.Pairwise (· ≤ ·) := h3.tail
      have h4' : ∀ x ∈ dequeAppend s t, ∀ u ∈ rest, x ≤ u := by
        intro x hx u hu
        rcases mem_dequeAppend s t x hx with hxs | hxt
        · exact h4 x hxs u (List.mem_cons_of_mem t hu)
        · subst hxt
          exact (List.pairwise_cons.mp h3).1 u hu
      obtain ⟨p1, p2, p3⟩ := ih (dequeAppend s t) h1' h2' h3' h4'
      refine ⟨p1, p2, ?_⟩
      intro x hx
      rcases p3 x hx with hxd | hxr
      · rcases mem_dequeAppend s t x hxd with hxs | hxt
        · exact Or.inl hxs
        · exact Or.inr (hxt ▸ List.mem_cons_self t rest)
      · exact Or.inr (List.mem_cons_of_mem t hxr)

theorem evict_suffix_of (now : Int) (s : List Int) : (evict now s).IsSuffix s := by
  induction s with
  | nil => exact List.suffix_refl _
  | cons t rest ih =>
      unfold evict
      split
      · exact ih.trans (List.suffix_cons t rest)
      · exact List.suffix_refl _

theorem mem_evict_young (now : Int) (s : List Int) (hs : s.Pairwise (· ≤ ·)) :
    ∀ t ∈ evict now s, now - t ≤ RATE_LIMIT_WINDOW_SEC := by
  induction s with
  | nil => intro t ht; simp [evict] at ht
  | cons a rest ih =>
      unfold evict
      split
      · exact ih hs.tail
      · intro t ht
        rcases List.mem_cons.mp ht with h | h
        · subst h; omega
        · have := (List.pairwise_cons.mp hs).1 t h
          omega

/-! ## Claims about the rate limiter -/

/-- C1 (amended): provided the recorded timestamps are nondecreasing and the
query time `now` is at least every recorded timestamp, `remaining(now)` evicts
the stale timestamps and returns `MAX_CALLS` minus the retained count, so that
`remaining(now)` plus the count of retained timestamps within `[now-3600, now]`
equals `MAX_CALLS = 100`, the retained count never exceeds `MAX_CALLS`, and a
timestamp older than `3600` seconds relative to `now` (in particular one
recorded at `t0` and queried at `t0 + 3601`) is never retained. -/
theorem rateLimiter_sliding_window_invariant (ts : List Int) (now : Int)
    (hmono : ts.Pairwise (· ≤ ·)) (hnow : ∀ t ∈ ts, t ≤ now) :
    (allowed_calls_remaining now (runRecords ts)).2
        + (countWindow now (allowed_calls_remaining now (runRecords ts)).1 : Int)
      = (RATE_LIMIT_MAX : Int)
    ∧ (allowed_calls_remaining now (runRecords ts)).1.length ≤ RATE_LIMIT_MAX
    ∧ ∀ t0 : Int, now - t0 > RATE_LIMIT_WINDOW_SEC →
        t0 ∉ (allowed_calls_remaining now (runRecords ts)).1 := by
  have base : ∀ x ∈ ([] : List Int), ∀ t ∈ ts, x ≤ t := by intro x hx; simp at hx
  obtain ⟨hpw, hlen, hmem⟩ :=
    runRecords_fold_inv ts [] (List.Pairwise.nil) (by simp [RATE_LIMIT_MAX]) hmono base
  have hpw' : (runRecords ts).Pairwise (· ≤ ·) := hpw
  have hyoung : ∀ t ∈ evict now (runRecords ts), now - t ≤ RATE_LIMIT_WINDOW_SEC :=
    mem_evict_young now (runRecords ts) hpw'
  have hsub : ∀ t ∈ evict now (runRecords ts), t ∈ runRecords ts :=
    fun t ht => (evict_suffix_of now (runRecords ts)).sublist.subset ht
  have hinwin : ∀ t ∈ evict now (runRecords ts),
      (fun t => decide (now - RATE_LIMIT_WINDOW_SEC ≤ t ∧ t ≤ now)) t = true := by
    intro t ht
    have h1 := hyoung t ht
    have h2 : t ∈ ts := by
      rcases hmem t (hsub t ht) with h | h
      · simp at h
      · exact h
    have h3 := hnow t h2
    simp only [decide_eq_true_eq]
    omega
  constructor
  · have : countWindow now (evict now (runRecords ts)) = (evict now (runRecords ts)).length := by
      unfold countWindow
      rw [List.filter_eq_self.mpr hinwin]
    simp only [allowed_calls_remaining]
    rw [this]
    omega
  constructor
  · simp only [allowed_calls_remaining]
    have hlen' : (runRecords ts).length ≤ RATE_LIMIT_MAX := hlen
    have := (evict_suffix_of now (runRecords ts)).sublist.length_le
    omega
  · intro t0 hold hmem0
    have := hyoung t0 hmem0
    omega

/-- C1 counterexample: for the unrestricted claim (arbitrary `record(t)`
sequences), recording `3700` then `1` and querying at `now = 3700` leaves the
stale timestamp `1` retained (the eviction loop stops at the young front
entry), so `remaining + in-window count = 99 ≠ 100`. -/
theorem rateLimiter_invariant_counterexample :
    (allowed_calls_remaining 3700 (runRecords [3700, 1])).2
        + (countWindow 3700 (allowed_calls_remaining 3700 (runRecords [3700, 1])).1 : Int)
      ≠ (RATE_LIMIT_MAX : Int) := by decide

/-- C1 witness: the amended invariant applied to the concrete record sequence
`[10, 20]` queried at `now = 3620`. -/
theorem rateLimiter_sliding_window_invariant_witness :
    ([10, 20] : List Int).Pairwise (· ≤ ·) ∧
    (∀ t ∈ ([10, 20] : List Int), t ≤ 3620) ∧
    ((allowed_calls_remaining 3620 (runRecords [10, 20])).2
        + (countWindow 3620 (allowed_calls_remaining 3620 (runRecords [10, 20])).1 : Int)
      = (RATE_LIMIT_MAX : Int)
    ∧ (allowed_calls_remaining 3620 (runRecords [10, 20])).1.length ≤ RATE_LIMIT_MAX
    ∧ ∀ t0 : Int, 3620 - t0 > RATE_LIMIT_WINDOW_SEC →
        t0 ∉ (allowed_calls_remaining 3620 (runRecords [10, 20])).1) :=
  ⟨by decide, by decide,
   rateLimiter_sliding_window_invariant [10, 20] 3620 (by decide) (by decide)⟩

/-- C2: `record(now)` is meant to append `now` itself, but `rate_ts.append(now
or time.time())` treats the valid timestamp `0.0` as falsy and appends the
current wall clock instead (here `42`); a nonzero timestamp is appended as
claimed, and at capacity the oldest entry is evicted FIFO with duplicates
retained. -/
theorem record_call_zero_timestamp_bug :
    record_call 42 [] (some 0) = [42] ∧ record_call 42 [] (some 0) ≠ [0]
    ∧ record_call 42 [] (some 7) = [7]
    ∧ record_call 42 (List.replicate 100 5) (some 7)
        = List.replicate 99 5 ++ [7] := by decide

/-! ## List update helpers for the dispatcher model -/

theorem getD_set_self {α : Type _} (l : List α) (i : Nat) (a d : α)
    (h : i < l.length) : (l.set i a).getD i d = a := by
  induction l generalizing i with
  | nil => simp at h
  | cons x t ih =>
      cases i with
      | zero => simp [List.getD]
      | succ m =>
          simp only [List.set, List.getD_cons_succ]
          exact ih m (by simpa using h)

theorem getD_set_ne {α : Type _} (l : List α) (i j : Nat) (a d : α)
    (h : i ≠ j) : (l.set i a).getD j d = l.getD j d := by
  induction l generalizing i j with
  | nil => simp
  | cons x t ih =>
      cases i with
      | zero =>
          cases j with
          | zero => exact absurd rfl h
          | succ k => simp [List.set]
      | succ m =>
          cases j with
          | zero => simp [List.set]
          | succ k =>
              simp only [List.set, List.getD_cons_succ]
              exact ih m k (fun hc => h (by rw [hc]))

theorem getD_eq_default_of_le {α : Type _} (l : List α) (i : Nat) (d : α)
    (h : l.length ≤ i) : l.getD i d = d := by
  induction l generalizing i with
  | nil => simp
  | cons x t ih =>
      cases i with
      | zero => simp at h
      | succ m => simpa using ih m (by simpa using h)

theorem countP_set {α : Type _} (l : List α) (i : Nat) (a d : α) (p : α → Bool)
    (h : i < l.length) :
    (l.set i a).countP p + (if p (l.getD i d) then 1 else 0)
      = l.countP p + (if p a then 1 else 0) := by
  induction l generalizing i with
  | nil => simp at h
  | cons x t ih =>
      cases i with
      | zero => simp only [List.set, List.countP_cons, List.getD_cons_zero]; omega
      | succ m =>
          simp only [List.set, List.countP_cons, List.getD_cons_succ]
          have := ih m (by simpa using h)
          omega

theorem filter_update_perm (l : List Nat) (hl : l.Nodup) (i : Nat) (hi : i ∈ l)
    (p p' : Nat → Bool) (hp : p i = false) (hp' : p' i = true)
    (hne : ∀ j ∈ l, j ≠ i → p' j = p j) :
    (l.filter p').Perm (i :: l.filter p) := by
  induction l with
  | nil => simp at hi
  | cons a t ih =>
      rcases List.mem_cons.mp hi with hai | hit
      · subst hai
        have hnotin : i ∉ t := (List.nodup_cons.mp hl).1
        have hcongr : t.filter p' = t.filter p := by
          apply List.filter_congr
          intro j hj
          exact hne j (List.mem_cons_of_mem i hj) (fun hji => hnotin (hji ▸ hj))
        simp only [List.filter_cons, hp, hp', if_pos, if_neg, cond_true]
        rw [hcongr]
        simp [hp]
      · have ha : a ≠ i := fun hai => (List.nodup_cons.mp hl).1 (hai ▸ hit)
        have hpa : p' a = p a := hne a (List.mem_cons_self a t) ha
        have hperm := ih (List.nodup_cons.mp hl).2 hit
          (fun j hj hji => hne j (List.mem_cons_of_mem a hj) hji)
        by_cases hc : p a = true
        · simp only [List.filter_cons, hpa, hc]
          exact (hperm.cons a).trans (List.Perm.swap i a _)
        · simp only [List.filter_cons, hpa, Bool.of_not_eq_true hc]
          simpa using hperm

/-! ## Dispatcher invariants -/

theorem batchStep_phases_length (C : Nat) (uens : List String)
    (oracle : String → Int × Json) (s : BatchState) (a : BatchAction) :
    (batchStep C uens oracle s a).phases.length = s.phases.length := by
  cases a with
  | start i =>
      simp only [batchStep]
      split <;> simp [List.length_set]
  | finish i =>
      simp only [batchStep]
      split <;> simp [List.length_set]

theorem runBatch_phases_length (C : Nat) (uens : List String)
    (oracle : String → Int × Json) (sched : List BatchAction) :
    (runBatch C uens oracle sched).phases.length = uens.length := by
  unfold runBatch
  refine foldl_invariant (fun s : BatchState => s.phases.length = uens.length) _ ?_ sched _ ?_
  · intro s a hs
    rw [batchStep_phases_length, hs]
  · simp [initState]

theorem countRunning_batchStep_le (C : Nat) (uens : List String)
    (oracle : String → Int × Json) (s : BatchState) (a : BatchAction)
    (h : countRunning s.phases ≤ C) :
    countRunning (batchStep C uens oracle s a).phases ≤ C := by
  cases a with
  | start i =>
      simp only [batchStep]
      split
      · next hc =>
          obtain ⟨hpend, hlt⟩ := hc
          have hi : i < s.phases.length := by
            by_contra hge
            rw [getD_eq_default_of_le s.phases i Phase.done (by omega)] at hpend
            exact absurd hpend (by decide)
          have hcount := countP_set s.phases i Phase.running Phase.done
            (fun p => p == Phase.running) hi
          rw [hpend] at hcount
          simp only [countRunning] at *
          simp at hcount
          omega
      · exact h
  | finish i =>
      simp only [batchStep]
      split
      · next hc =>
          have hi : i < s.phases.length := by
            by_contra hge
            rw [getD_eq_default_of_le s.phases i Phase.pending (by omega)] at hc
            exact absurd hc (by decide)
          have hcount := countP_set s.phases i Phase.done Phase.pending
            (fun p => p == Phase.running) hi
          rw [hc] at hcount
          simp only [countRunning] at *
          simp at hcount
          omega
      · exact h

/-- C9: during every batch run with concurrency bound `C`, after any schedule
of steps, at most `C` lookups are in flight: the semaphore gate admits a new
lookup only while fewer than `C` are running. -/
theorem batch_semaphore_bound (C : Nat) (uens : List String)
    (oracle : String → Int × Json) (sched : List BatchAction) :
    countRunning (runBatch C uens oracle sched).phases ≤ C := by
  unfold runBatch
  refine foldl_invariant (fun s : BatchState => countRunning s.phases ≤ C) _ ?_ sched _ ?_
  · intro s a hs
    exact countRunning_batchStep_le C uens oracle s a hs
  · simp only [initState, countRunning]
    have : (uens.map (fun _ => Phase.pending)).countP (fun p => p == Phase.running)
        = 0 := by
      rw [List.countP_eq_zero]
      intro p hp
      rcases List.mem_map.mp hp with ⟨u, _, rfl⟩
      decide
    omega

theorem getD_default_irrel {α : Type _} (l : List α) (i : Nat) (d d' : α)
    (h : i < l.length) : l.getD i d = l.getD i d' := by
  induction l generalizing i with
  | nil => simp at h
  | cons x t ih =>
      cases i with
      | zero => simp
      | succ m => simpa using ih m (by simpa using h)

theorem doneIdx_batchStep (C : Nat) (uens : List String)
    (oracle : String → Int × Json) (s : BatchState) (a : BatchAction)
    (hres : s.results.Perm ((doneIdx s.phases).map (entryOf oracle uens))) :
    (batchStep C uens oracle s a).results.Perm
      ((doneIdx (batchStep C uens oracle s a).phases).map (entryOf oracle uens)) := by
  cases a with
  | start i =>
      simp only [batchStep]
      split
      · next hc =>
          obtain ⟨hpend, _⟩ := hc
          have hi : i < s.phases.length := by
            by_contra hge
            rw [getD_eq_default_of_le s.phases i Phase.done (by omega)] at hpend
            exact absurd hpend (by decide)
          have heq : doneIdx (s.phases.set i Phase.running) = doneIdx s.phases := by
            unfold doneIdx
            rw [List.length_set]
            apply List.filter_congr
            intro j hj
            by_cases hij : i = j
            · subst hij
              rw [getD_set_self s.phases i Phase.running Phase.pending hi,
                getD_default_irrel s.phases i Phase.pending Phase.done hi, hpend]
              decide
            · rw [getD_set_ne s.phases i j Phase.running Phase.pending hij]
          simpa [heq] using hres
      · exact hres
  | finish i =>
      simp only [batchStep]
      split
      · next hc =>
          have hi : i < s.phases.length := by
            by_contra hge
            rw [getD_eq_default_of_le s.phases i Phase.pending (by omega)] at hc
            exact absurd hc (by decide)
          have hupd : ((s.phases.set i Phase.done).length = s.phases.length) :=
            List.length_set s.phases i Phase.done
          have hperm : (doneIdx (s.phases.set i Phase.done)).Perm
              (i :: doneIdx s.phases) := by
            unfold doneIdx
            rw [hupd]
            exact filter_update_perm (List.range s.phases.length)
              (List.nodup_range _) i (List.mem_range.mpr hi) _ _
              (by rw [hc]; decide)
              (by rw [getD_set_self s.phases i Phase.done Phase.pending hi]; decide)
              (fun j _ hji =>
                by rw [getD_set_ne s.phases i j Phase.done Phase.pending
                  (fun hij => hji hij.symm)])
          exact ((List.perm_append_singleton _ _).trans
            (hres.cons (entryOf oracle uens i))).trans
            ((hperm.map (entryOf oracle uens)).symm)
      · exact hres

theorem map_entry_range (uens : List String) (oracle : String → Int × Json) :
    (List.range uens.length).map (entryOf oracle uens)
      = uens.map (fun u => (u, (oracle u).1, (oracle u).2)) := by
  induction uens with
  | nil => simp
  | cons u rest ih =>
      rw [List.length_cons, List.range_succ_eq_map, List.map_cons, List.map_map]
      have hhead : entryOf oracle (u :: rest) 0 = (u, (oracle u).1, (oracle u).2) := by
        simp [entryOf]
      have htail : (entryOf oracle (u :: rest)) ∘ Nat.succ = entryOf oracle rest := by
        funext i
        simp [entryOf, Function.comp]
      rw [hhead, htail, ih]
      rfl

theorem runBatch_results_perm (C : Nat) (uens : List String)
    (oracle : String → Int × Json) (sched : List BatchAction)
    (hdone : completedAll (runBatch C uens oracle sched)) :
    (runBatch C uens oracle sched).results.Perm
      (uens.map (fun u => (u, (oracle u).1, (oracle u).2))) := by
  have hinv : (runBatch C uens oracle sched).results.Perm
      ((doneIdx (runBatch C uens oracle sched).phases).map (entryOf oracle uens)) := by
    unfold runBatch
    refine foldl_invariant
      (fun s : BatchState => s.results.Perm ((doneIdx s.phases).map (entryOf oracle uens)))
      _ ?_ sched _ ?_
    · intro s a hs
      exact doneIdx_batchStep C uens oracle s a hs
    · simp only [initState]
      have : doneIdx (uens.map fun _ => Phase.pending) = [] := by
        unfold doneIdx
        rw [List.filter_eq_nil_iff]
        intro i hi
        have hlt : i < (uens.map fun _ => Phase.pending).length := List.mem_range.mp hi
        have : (uens.map fun _ => Phase.pending).getD i Phase.pending = Phase.pending := by
          have := List.getD_eq_getElem (uens.map fun _ => Phase.pending) Phase.pending hlt
          rw [this]
          rcases List.mem_map.mp (List.getElem_mem hlt) with ⟨u, _, h⟩
          exact h.symm
        rw [this]
        decide
      rw [this]
      simp
  have hfull : doneIdx (runBatch C uens oracle sched).phases
      = List.range uens.length := by
    unfold doneIdx
    rw [runBatch_phases_length]
    apply List.filter_eq_self.mpr
    intro i hi
    have hlt : i < (runBatch C uens oracle sched).phases.length := by
      rw [runBatch_phases_length]
      exact List.mem_range.mp hi
    rw [List.getD_eq_getElem _ Phase.pending hlt]
    have := hdone _ (List.getElem_mem hlt)
    rw [this]
    decide
  rw [hfull, map_entry_range] at hinv
  exact hinv

theorem runBatch_empty (C : Nat) (oracle : String → Int × Json)
    (sched : List BatchAction) :
    runBatch C [] oracle sched = initState [] := by
  unfold runBatch
  refine foldl_invariant (fun s : BatchState => s = initState []) _ ?_ sched _ rfl
  intro s a hs
  subst hs
  cases a with
  | start i => simp [batchStep, initState]
  | finish i => simp [batchStep, initState]

/-! ## Claims about the dispatcher and the client -/

/-- C3: for every identifier list (duplicates permitted) and every concurrency
bound, a completed batch run returns exactly one result per input identifier —
the results are a permutation of the inputs each paired with its own lookup
outcome — and an empty identifier list yields an empty result list with no
client invocations and no rate-limiter records. -/
theorem batch_lookup_complete_results (C : Nat) (uens : List String)
    (oracle : String → Int × Json) (sched : List BatchAction)
    (hdone : completedAll (runBatch C uens oracle sched)) :
    (runBatch C uens oracle sched).results.length = uens.length
    ∧ (runBatch C uens oracle sched).results.Perm
        (uens.map (fun u => (u, (oracle u).1, (oracle u).2)))
    ∧ (uens = [] → (runBatch C uens oracle sched).results = []
        ∧ (runBatch C uens oracle sched).invocations = 0
        ∧ (runBatch C uens oracle sched).records = 0) := by
  have hperm := runBatch_results_perm C uens oracle sched hdone
  refine ⟨?_, hperm, ?_⟩
  · rw [hperm.length_eq, List.length_map]
  · intro hnil
    subst hnil
    rw [runBatch_empty]
    exact ⟨rfl, rfl, rfl⟩

/-- C3 witness: a two-identifier batch with concurrency 1 under a concrete
completing schedule. -/
theorem batch_lookup_complete_results_witness :
    (runBatch 1 ["a", "b"] (fun _ => (200, Json.null))
        [.start 0, .finish 0, .start 1, .finish 1]).results.length = 2
    ∧ (runBatch 1 ["a", "b"] (fun _ => (200, Json.null))
        [.start 0, .finish 0, .start 1, .finish 1]).results.Perm
        (["a", "b"].map (fun u => (u, 200, Json.null)))
    ∧ (["a", "b"] = ([] : List String) →
        (runBatch 1 ["a", "b"] (fun _ => (200, Json.null))
          [.start 0, .finish 0, .start 1, .finish 1]).results = []
        ∧ (runBatch 1 ["a", "b"] (fun _ => (200, Json.null))
            [.start 0, .finish 0, .start 1, .finish 1]).invocations = 0
        ∧ (runBatch 1 ["a", "b"] (fun _ => (200, Json.null))
            [.start 0, .finish 0, .start 1, .finish 1]).records = 0) :=
  batch_lookup_complete_results 1 ["a", "b"] (fun _ => (200, Json.null))
    [.start 0, .finish 0, .start 1, .finish 1] (by decide)

/-- C4: on any transport failure the client returns status `0` with an error
payload whose description (exception class name and message) is non-empty, and
in a completed batch run such a failure is captured as that identifier's own
result tuple rather than aborting the batch. -/
theorem transport_failure_normalized (name msg : String) :
    search_gst_registered (.transportError name msg)
      = (0, Json.obj (.cons "error" (.str (name ++ ": " ++ msg)) .nil))
    ∧ (name ++ ": " ++ msg).length > 0
    ∧ ∀ (C : Nat) (uens : List String) (oracle : String → Int × Json)
        (sched : List BatchAction) (u0 : String),
        u0 ∈ uens →
        oracle u0 = search_gst_registered (.transportError name msg) →
        completedAll (runBatch C uens oracle sched) →
        (u0, 0, Json.obj (.cons "error" (.str (name ++ ": " ++ msg)) .nil))
          ∈ (runBatch C uens oracle sched).results := by
  refine ⟨rfl, ?_, ?_⟩
  · have h2 : (": ").length = 2 := rfl
    have := String.length_append (name ++ ": ") msg
    have := String.length_append name ": "
    omega
  · intro C uens oracle sched u0 hmem horacle hdone
    have hperm := runBatch_results_perm C uens oracle sched hdone
    rw [hperm.mem_iff]
    apply List.mem_map.mpr
    refine ⟨u0, hmem, ?_⟩
    rw [horacle]
    rfl

/-- C4 witness: a concrete refused connection inside a concrete completed
batch. -/
theorem transport_failure_normalized_witness :
    (search_gst_registered (.transportError "ClientConnectorError" "refused")
      = (0, Json.obj (.cons "error"
          (.str ("ClientConnectorError" ++ ": " ++ "refused")) .nil)))
    ∧ ("ClientConnectorError" ++ ": " ++ "refused").length > 0
    ∧ ("x", 0, Json.obj (.cons "error"
          (.str ("ClientConnectorError" ++ ": " ++ "refused")) .nil))
        ∈ (runBatch 2 ["x"]
            (fun _ => search_gst_registered
              (.transportError "ClientConnectorError" "refused"))
            [.start 0, .finish 0]).results := by
  obtain ⟨h1, h2, h3⟩ :=
    transport_failure_normalized "ClientConnectorError" "refused"
  exact ⟨h1, h2,
    h3 2 ["x"] (fun _ => search_gst_registered
        (.transportError "ClientConnectorError" "refused"))
      [.start 0, .finish 0] "x" (by decide) rfl (by decide)⟩

/-! ## Projector lemmas -/

theorem lookup_append (l1 l2 : List (String × Int × Json)) (a : String) :
    List.lookup a (l1 ++ l2)
      = ((List.lookup a l1).orElse (fun _ => List.lookup a l2)) := by
  induction l1 with
  | nil => simp [List.lookup]
  | cons x t ih =>
      obtain ⟨k, v⟩ := x
      by_cases h : (a == k) = true
      · simp [List.lookup, h]
      · simp only [List.cons_append, List.lookup]
        rw [Bool.of_not_eq_true h]
        simpa using ih

theorem lookup_out_mapOf_fold (rs : List (String × Int × Json)) :
    ∀ (m : List (String × Int × Json)) (u : String),
    List.lookup u (rs.foldl
        (fun m r => if (List.lookup r.1 m).isSome then m else m ++ [r]) m)
      = ((List.lookup u m).orElse (fun _ => List.lookup u rs)) := by
  induction rs with
  | nil =>
      intro m u
      simp only [List.foldl_nil]
      cases List.lookup u m <;> rfl
  | cons r rest ih =>
      intro m u
      obtain ⟨k, v⟩ := r
      rw [List.foldl_cons, ih]
      by_cases hu : (u == k) = true
      · have hueq : u = k := eq_of_beq hu
        subst hueq
        by_cases hk : (List.lookup u m).isSome = true
        · obtain ⟨w, hw⟩ := Option.isSome_iff_exists.mp hk
          rw [if_pos hk, hw]
          rfl
        · rw [if_neg hk, lookup_append,
            Option.not_isSome_iff_eq_none.mp hk]
          simp [List.lookup]
      · have hbeq : (u == k) = false := Bool.of_not_eq_true hu
        have h2 : List.lookup u ((k, v) :: rest) = List.lookup u rest := by
          simp [List.lookup, hbeq]
        by_cases hk : (List.lookup k m).isSome = true
        · rw [if_pos hk, h2]
        · have h1 : List.lookup u [(k, v)] = none := by
            simp [List.lookup, hbeq]
          rw [if_neg hk, lookup_append, h1, h2]
          cases List.lookup u m <;> rfl

theorem lookup_out_mapOf (rs : List (String × Int × Json)) (u : String) :
    List.lookup u (out_mapOf rs) = List.lookup u rs := by
  unfold out_mapOf
  rw [lookup_out_mapOf_fold]
  simp [List.lookup, Option.orElse]

theorem lookup_eq_none_of_fresh (rs : List (String × Int × Json)) (u : String)
    (h : ∀ r ∈ rs, r.1 ≠ u) : List.lookup u rs = none := by
  induction rs with
  | nil => rfl
  | cons r rest ih =>
      obtain ⟨k, v⟩ := r
      have hk : k ≠ u := h (k, v) (List.mem_cons_self _ _)
      have hbeq : (u == k) = false := by
        rw [beq_eq_false_iff_ne]
        exact fun hc => hk hc.symm
      simp only [List.lookup, hbeq]
      exact ih (fun r hr => h r (List.mem_cons_of_mem _ hr))

theorem extract_row_of_lookup_none (m : List (String × Int × Json)) (u : String)
    (h : List.lookup u m = none) :
    extract_row m u = .ok (.str "", .str "", "") := by
  unfold extract_row
  rw [h]

/-! ## Claims about the projector -/

/-- C5 counterexample: a body carrying `data` as a non-dict value makes
`extract_row` raise (`body.get("data", {}).get("registrationId", "")` calls
`.get` on a non-dict), so the per-row derivation is not total. -/
theorem extract_row_attribute_error :
    extract_row (out_mapOf resCE5) "u" = .error "AttributeError" := by decide

/-- C5 (amended): for every row whose looked-up body, when it is structured
data carrying a `data` field, carries that field as structured data, the
derivation is total and as described: return-code is the body's `returnCode`
field when the body is structured data and empty otherwise, registration-id is
the nested `data.registrationId` field when present and empty otherwise, and
the serialized-body column is the body's JSON serialization; when the `data`
field holds a non-dict value the source instead raises `AttributeError`. -/
theorem extract_row_defensive (m : List (String × Int × Json)) (uen : String)
    (h : dataFieldIsDict m uen = true) :
    extract_row m uen = .ok (returnCodeOf m uen, regIdOf m uen, serializedOf m uen) := by
  cases hl : List.lookup uen m with
  | none => simp [extract_row, returnCodeOf, regIdOf, serializedOf, hl]
  | some v =>
      obtain ⟨st, body⟩ := v
      cases body with
      | obj fs =>
          cases hd : fs.getD "data" (.obj .nil) with
          | obj dfs =>
              simp [extract_row, returnCodeOf, regIdOf, serializedOf, hl, hd]
          | null => simp [dataFieldIsDict, hl, hd, Json.isObj] at h
          | bool b => simp [dataFieldIsDict, hl, hd, Json.isObj] at h
          | num n => simp [dataFieldIsDict, hl, hd, Json.isObj] at h
          | str s => simp [dataFieldIsDict, hl, hd, Json.isObj] at h
          | arr xs => simp [dataFieldIsDict, hl, hd, Json.isObj] at h
      | null => simp [extract_row, returnCodeOf, regIdOf, serializedOf, hl]
      | bool b => simp [extract_row, returnCodeOf, regIdOf, serializedOf, hl]
      | num n => simp [extract_row, returnCodeOf, regIdOf, serializedOf, hl]
      | str s => simp [extract_row, returnCodeOf, regIdOf, serializedOf, hl]
      | arr xs => simp [extract_row, returnCodeOf, regIdOf, serializedOf, hl]

/-- C5 witness: a well-shaped body (`returnCode` 10, `data.registrationId`
present) extracted without error. -/
theorem extract_row_defensive_witness :
    dataFieldIsDict resW5 "u" = true
    ∧ extract_row resW5 "u"
        = .ok (returnCodeOf resW5 "u", regIdOf resW5 "u", serializedOf resW5 "u") :=
  ⟨by decide, extract_row_defensive resW5 "u" (by decide)⟩

/-- C6: the `out_map` keeps the first result recorded for each identifier
(so all rows carrying that identifier receive that first result's derived
values), and a row whose identifier has no corresponding result receives
all-empty derived fields. -/
theorem projector_first_result_wins (pre post : List (String × Int × Json))
    (uen : String) (st : Int) (body : Json)
    (hpre : ∀ r ∈ pre, r.1 ≠ uen) :
    List.lookup uen (out_mapOf (pre ++ (uen, st, body) :: post)) = some (st, body)
    ∧ ∀ results : List (String × Int × Json), (∀ r ∈ results, r.1 ≠ uen) →
        extract_row (out_mapOf results) uen = .ok (.str "", .str "", "") := by
  constructor
  · rw [lookup_out_mapOf, lookup_append, lookup_eq_none_of_fresh pre uen hpre]
    simp [List.lookup, Option.orElse]
  · intro results hres
    exact extract_row_of_lookup_none _ _
      (by rw [lookup_out_mapOf]; exact lookup_eq_none_of_fresh results uen hres)

/-- C6 witness: with results `[(a,...), (b,2,null), (b,3,null)]` the lookup for
`b` returns the first `b` result, and an identifier absent from the results
extracts to all-empty fields. -/
theorem projector_first_result_wins_witness :
    (∀ r ∈ [("a", (1 : Int), Json.null)], r.1 ≠ "b")
    ∧ List.lookup "b" (out_mapOf ([("a", (1 : Int), Json.null)]
        ++ ("b", 2, Json.null) :: [("b", 3, Json.null)])) = some (2, Json.null)
    ∧ extract_row (out_mapOf [("a", (1 : Int), Json.null)]) "b"
        = .ok (.str "", .str "", "") := by
  have h := projector_first_result_wins [("a", (1 : Int), Json.null)]
    [("b", 3, Json.null)] "b" 2 Json.null (by decide)
  exact ⟨by decide, h.1, h.2 [("a", (1 : Int), Json.null)] (by decide)⟩

theorem process_eq_error (df : DataFrame) (col_a : String)
    (results : List (String × Int × Json)) (h : getCol df col_a = none) :
    process_batch_results df col_a results = .error "KeyError" := by
  unfold process_batch_results
  rw [h]
  rfl

theorem process_unfold_ok_col (df : DataFrame) (col_a : String)
    (results : List (String × Int × Json)) (col : List Json)
    (h : getCol df col_a = some col) :
    process_batch_results df col_a results
      = (extractAll (out_mapOf results) (col.map (fun c => pyStrip (pyStr c)))).bind
          (fun triples => Except.ok (setCol (setCol (setCol df "response-status"
              (triples.map (fun t => t.1))) "response-registrationId"
              (triples.map (fun t => t.2.1))) "json-response"
              (triples.map (fun t => Json.str t.2.2)))) := by
  unfold process_batch_results
  rw [h]
  rfl

theorem any_name_false_of_fresh (cols : List (String × List Json)) (n : String)
    (hall : cols.all (fun c => !(isRespCol c.1)) = true) (hn : isRespCol n = true) :
    cols.any (fun c => c.1 == n) = false := by
  rw [List.any_eq_false]
  intro c hc
  have := List.all_eq_true.mp hall c hc
  intro hbeq
  have hcn : c.1 = n := eq_of_beq hbeq
  rw [hcn, hn] at this
  simp at this

theorem setCol_absent (df : DataFrame) (n : String) (v : List Json)
    (h : df.cols.any (fun c => c.1 == n) = false) :
    setCol df n v = ⟨df.cols ++ [(n, v)]⟩ := by
  unfold setCol
  rw [h]
  simp

/-- C7 (amended): provided the input table carries none of the three response
column names, the output preserves every original column and row unchanged
(same names, same values, same order) and appends exactly the three columns
`response-status`, `response-registrationId`, `json-response`, in that order,
at the end. -/
theorem projector_preserves_and_appends (df : DataFrame) (col_a : String)
    (results : List (String × Int × Json)) (out : DataFrame)
    (hfresh : df.cols.all (fun c => !(isRespCol c.1)) = true)
    (hok : process_batch_results df col_a results = .ok out) :
    ∃ v1 v2 v3, out.cols
      = df.cols ++ [("response-status", v1), ("response-registrationId", v2),
          ("json-response", v3)] := by
  cases hcol : getCol df col_a with
  | none =>
      rw [process_eq_error df col_a results hcol] at hok
      exact Except.noConfusion hok
  | some col =>
      cases he : extractAll (out_mapOf results) (col.map (fun c => pyStrip (pyStr c))) with
      | error e =>
          rw [process_unfold_ok_col df col_a results col hcol, he] at hok
          exact Except.noConfusion hok
      | ok triples =>
          rw [process_unfold_ok_col df col_a results col hcol, he] at hok
          have hout : out
              = setCol (setCol (setCol df "response-status"
                  (triples.map (fun t => t.1)))
                "response-registrationId" (triples.map (fun t => t.2.1)))
                "json-response" (triples.map (fun t => Json.str t.2.2)) := by
            injection hok with hok
            exact hok.symm
          have a1 : df.cols.any (fun c => c.1 == "response-status") = false :=
            any_name_false_of_fresh df.cols _ hfresh (by decide)
          have a2 : df.cols.any (fun c => c.1 == "response-registrationId") = false :=
            any_name_false_of_fresh df.cols _ hfresh (by decide)
          have a3 : df.cols.any (fun c => c.1 == "json-response") = false :=
            any_name_false_of_fresh df.cols _ hfresh (by decide)
          refine ⟨triples.map (fun t => t.1), triples.map (fun t => t.2.1),
            triples.map (fun t => Json.str t.2.2), ?_⟩
          rw [hout, setCol_absent df _ _ a1]
          rw [setCol_absent ⟨df.cols ++ [("response-status", triples.map (fun t => t.1))]⟩
            _ _ (by simp [List.any_append, a2])]
          rw [setCol_absent _ _ _ (by simp [List.any_append, a3])]
          simp

/-- C7 counterexample: on an input table already carrying a `response-status`
column, the projector overwrites that column in place (3 output columns, the
original value `x` replaced by the derived value), instead of preserving every
original column unchanged and appending three new ones. -/
theorem projector_preserves_and_appends_counterexample :
    process_batch_results dfCE7 "response-status" []
      = Except.ok ⟨[("response-status", [Json.str ""]),
          ("response-registrationId", [Json.str ""]),
          ("json-response", [Json.str ""])]⟩
    ∧ ¬ ∃ v1 v2 v3, ([("response-status", [Json.str ""]),
          ("response-registrationId", [Json.str ""]),
          ("json-response", [Json.str ""])] : List (String × List Json))
        = dfCE7.cols ++ [("response-status", v1), ("response-registrationId", v2),
            ("json-response", v3)] := by
  constructor
  · decide
  · rintro ⟨v1, v2, v3, h⟩
    have := congrArg List.length h
    simp [dfCE7] at this

/-- C7 witness: the amended preservation-and-append property at the concrete
table `dfW` and result list `resW`. -/
theorem projector_preserves_and_appends_witness :
    ∃ v1 v2 v3, outW.cols
      = dfW.cols ++ [("response-status", v1), ("response-registrationId", v2),
          ("json-response", v3)] :=
  projector_preserves_and_appends dfW "id" resW outW (by decide) (by decide)

theorem fst_replace (c : String × List Json) (n : String) (v : List Json) :
    ((if c.1 == n then (c.1, v) else c).1) = c.1 := by
  by_cases h : (c.1 == n) = true <;> simp [h]

theorem find?_map_replace (cols : List (String × List Json)) (n name : String)
    (v : List Json) (h : (name == n) = false) :
    (cols.map (fun c => if c.1 == n then (c.1, v) else c)).find?
        (fun c => c.1 == name)
      = cols.find? (fun c => c.1 == name) := by
  induction cols with
  | nil => rfl
  | cons c t ih =>
      rw [List.map_cons]
      simp only [List.find?]
      rw [fst_replace]
      by_cases hc : (c.1 == name) = true
      · simp only [hc]
        have hcn : (c.1 == n) = false := by
          have hce := eq_of_beq hc
          rw [hce]
          exact h
        simp [hcn]
      · simp only [Bool.of_not_eq_true hc]
        exact ih

theorem getCol_setCol_ne (df : DataFrame) (n name : String) (v : List Json)
    (h : (name == n) = false) :
    getCol (setCol df n v) name = getCol df name := by
  unfold setCol getCol
  by_cases hany : df.cols.any (fun c => c.1 == n) = true
  · rw [if_pos hany]
    rw [find?_map_replace df.cols n name v h]
  · rw [if_neg hany]
    rw [List.find?_append]
    have hn : (n == name) = false := by
      cases hbe : (n == name)
      · rfl
      · have hnn := eq_of_beq hbe
        subst hnn
        simp at h
    have hfind : List.find? (fun c => c.1 == name)
        ([(n, v)] : List (String × List Json)) = none := by
      simp only [List.find?]
      simp [hn]
    rw [hfind, Option.or_none]

theorem setCol_keeps_value (df : DataFrame) (n : String) (v : List Json) :
    ∀ c ∈ (setCol df n v).cols, c.1 = n → c.2 = v := by
  unfold setCol
  by_cases hany : df.cols.any (fun c => c.1 == n) = true
  · rw [if_pos hany]
    intro c hc hcn
    rcases List.mem_map.mp hc with ⟨c0, _, rfl⟩
    by_cases h0 : (c0.1 == n) = true
    · simp [h0]
    · rw [if_neg h0] at hcn ⊢
      exact absurd (by simp [hcn] : (c0.1 == n) = true) h0
  · rw [if_neg hany]
    intro c hc hcn
    rcases List.mem_append.mp hc with hin | hin
    · have hall : (df.cols.any fun c => c.1 == n) = true :=
        List.any_eq_true.mpr ⟨c, hin, by simp [hcn]⟩
      exact absurd hall hany
    · simp at hin
      rw [hin]

theorem setCol_keeps_other_value (df : DataFrame) (n n' : String)
    (v v' : List Json) (hne : (n' == n) = false)
    (hprev : ∀ c ∈ df.cols, c.1 = n' → c.2 = v') :
    ∀ c ∈ (setCol df n v).cols, c.1 = n' → c.2 = v' := by
  unfold setCol
  by_cases hany : df.cols.any (fun c => c.1 == n) = true
  · rw [if_pos hany]
    intro c hc hcn
    rcases List.mem_map.mp hc with ⟨c0, h0mem, rfl⟩
    by_cases h0 : (c0.1 == n) = true
    · rw [if_pos h0] at hcn
      have h0' : c0.1 = n := eq_of_beq h0
      rw [← hcn, h0'] at hne
      simp at hne
    · rw [if_neg h0] at hcn ⊢
      exact hprev c0 h0mem hcn
  · rw [if_neg hany]
    intro c hc hcn
    rcases List.mem_append.mp hc with hin | hin
    · exact hprev c hin hcn
    · simp at hin
      rw [hin] at hcn
      rw [← hcn] at hne
      simp at hne

theorem setCol_name_present (df : DataFrame) (n : String) (v : List Json) :
    (setCol df n v).cols.any (fun c => c.1 == n) = true := by
  unfold setCol
  by_cases hany : df.cols.any (fun c => c.1 == n) = true
  · rw [if_pos hany]
    rcases List.any_eq_true.mp hany with ⟨c, hc, hcn⟩
    apply List.any_eq_true.mpr
    refine ⟨(if c.1 == n then (c.1, v) else c), List.mem_map_of_mem _ hc, ?_⟩
    rw [fst_replace]
    exact hcn
  · rw [if_neg hany]
    apply List.any_eq_true.mpr
    refine ⟨(n, v), List.mem_append_right _ (List.mem_singleton.mpr rfl), ?_⟩
    simp

theorem setCol_presence_mono (df : DataFrame) (n n' : String) (v : List Json)
    (h : df.cols.any (fun c => c.1 == n') = true) :
    (setCol df n v).cols.any (fun c => c.1 == n') = true := by
  unfold setCol
  by_cases hany : df.cols.any (fun c => c.1 == n) = true
  · rw [if_pos hany]
    rcases List.any_eq_true.mp h with ⟨c, hc, hcn⟩
    apply List.any_eq_true.mpr
    refine ⟨(if c.1 == n then (c.1, v) else c), List.mem_map_of_mem _ hc, ?_⟩
    rw [fst_replace]
    exact hcn
  · rw [if_neg hany]
    rcases List.any_eq_true.mp h with ⟨c, hc, hcn⟩
    exact List.any_eq_true.mpr ⟨c, List.mem_append_left _ hc, hcn⟩

theorem setCol_self (df : DataFrame) (n : String) (v : List Json)
    (hall : ∀ c ∈ df.cols, c.1 = n → c.2 = v)
    (hpres : df.cols.any (fun c => c.1 == n) = true) :
    setCol df n v = df := by
  unfold setCol
  rw [if_pos hpres]
  have hid : ∀ c ∈ df.cols, (if c.1 == n then (c.1, v) else c) = c := by
    intro c hc
    by_cases h0 : (c.1 == n) = true
    · rw [if_pos h0, ← hall c hc (eq_of_beq h0)]
    · rw [if_neg h0]
  rw [List.map_congr_left hid]
  simp

theorem setCols3_self (df : DataFrame) (v1 v2 v3 : List Json) :
    setCol (setCol (setCol
        (setCol (setCol (setCol df "response-status" v1)
          "response-registrationId" v2) "json-response" v3)
      "response-status" v1) "response-registrationId" v2) "json-response" v3
    = setCol (setCol (setCol df "response-status" v1)
        "response-registrationId" v2) "json-response" v3 := by
  have F1 : ∀ c ∈ (setCol (setCol (setCol df "response-status" v1)
      "response-registrationId" v2) "json-response" v3).cols,
      c.1 = "response-status" → c.2 = v1 :=
    setCol_keeps_other_value _ "json-response" "response-status" v3 v1 (by decide)
      (setCol_keeps_other_value _ "response-registrationId" "response-status" v2 v1
        (by decide) (setCol_keeps_value df "response-status" v1))
  have F2 : ∀ c ∈ (setCol (setCol (setCol df "response-status" v1)
      "response-registrationId" v2) "json-response" v3).cols,
      c.1 = "response-registrationId" → c.2 = v2 :=
    setCol_keeps_other_value _ "json-response" "response-registrationId" v3 v2
      (by decide) (setCol_keeps_value _ "response-registrationId" v2)
  have F3 : ∀ c ∈ (setCol (setCol (setCol df "response-status" v1)
      "response-registrationId" v2) "json-response" v3).cols,
      c.1 = "json-response" → c.2 = v3 :=
    setCol_keeps_value _ "json-response" v3
  have P1 : (setCol (setCol (setCol df "response-status" v1)
      "response-registrationId" v2) "json-response" v3).cols.any
      (fun c => c.1 == "response-status") = true :=
    setCol_presence_mono _ "json-response" "response-status" v3
      (setCol_presence_mono _ "response-registrationId" "response-status" v2
        (setCol_name_present df "response-status" v1))
  have P2 : (setCol (setCol (setCol df "response-status" v1)
      "response-registrationId" v2) "json-response" v3).cols.any
      (fun c => c.1 == "response-registrationId") = true :=
    setCol_presence_mono _ "json-response" "response-registrationId" v3
      (setCol_name_present _ "response-registrationId" v2)
  have P3 : (setCol (setCol (setCol df "response-status" v1)
      "response-registrationId" v2) "json-response" v3).cols.any
      (fun c => c.1 == "json-response") = true :=
    setCol_name_present _ "json-response" v3
  rw [setCol_self _ "response-status" v1 F1 P1,
    setCol_self _ "response-registrationId" v2 F2 P2,
    setCol_self _ "json-response" v3 F3 P3]

/-- C8 (amended): provided the first-column name is not one of the three
response column names, projection is idempotent: applying the projector to its
own successful output with the same first-column name and the same result list
yields that output again. -/
theorem projector_idempotent (df : DataFrame) (col_a : String)
    (results : List (String × Int × Json))
    (hname : isRespCol col_a = false)
    (hok : (process_batch_results df col_a results).isOk = true) :
    (process_batch_results df col_a results).bind
        (fun out => process_batch_results out col_a results)
      = process_batch_results df col_a results := by
  have hn1 : (col_a == "response-status") = false := by
    cases hbe : (col_a == "response-status")
    · rfl
    · simp [isRespCol, hbe] at hname
  have hn2 : (col_a == "response-registrationId") = false := by
    cases hbe : (col_a == "response-registrationId")
    · rfl
    · simp [isRespCol, hbe] at hname
  have hn3 : (col_a == "json-response") = false := by
    cases hbe : (col_a == "json-response")
    · rfl
    · simp [isRespCol, hbe] at hname
  cases hcol : getCol df col_a with
  | none =>
      rw [process_eq_error df col_a results hcol] at hok
      exact Bool.noConfusion hok
  | some col =>
      cases he : extractAll (out_mapOf results)
          (col.map (fun c => pyStrip (pyStr c))) with
      | error e =>
          rw [process_unfold_ok_col df col_a results col hcol, he] at hok
          exact Bool.noConfusion hok
      | ok triples =>
          have hfirst : process_batch_results df col_a results
              = Except.ok (setCol (setCol (setCol df "response-status"
                  (triples.map (fun t => t.1)))
                "response-registrationId" (triples.map (fun t => t.2.1)))
                "json-response" (triples.map (fun t => Json.str t.2.2))) := by
            rw [process_unfold_ok_col df col_a results col hcol, he]
            rfl
          rw [hfirst]
          have hcol2 : getCol (setCol (setCol (setCol df "response-status"
              (triples.map (fun t => t.1)))
              "response-registrationId" (triples.map (fun t => t.2.1)))
              "json-response" (triples.map (fun t => Json.str t.2.2))) col_a
              = some col := by
            rw [getCol_setCol_ne _ _ _ _ hn3, getCol_setCol_ne _ _ _ _ hn2,
              getCol_setCol_ne _ _ _ _ hn1]
            exact hcol
          show process_batch_results (setCol (setCol (setCol df "response-status"
              (triples.map (fun t => t.1)))
              "response-registrationId" (triples.map (fun t => t.2.1)))
              "json-response" (triples.map (fun t => Json.str t.2.2))) col_a results
            = _
          rw [process_unfold_ok_col _ col_a results col hcol2, he]
          show Except.ok _ = _
          rw [setCols3_self df (triples.map (fun t => t.1))
            (triples.map (fun t => t.2.1)) (triples.map (fun t => Json.str t.2.2))]

/-- C8 counterexample: when the first column is itself named `json-response`,
the first application overwrites it with serialized bodies, so the second
application strips different identifiers and produces a different table —
projection is not idempotent for every input table. -/
theorem projector_idempotent_counterexample :
    (process_batch_results dfCE8 "json-response" resCE8).isOk = true
    ∧ (process_batch_results dfCE8 "json-response" resCE8).bind
        (fun out => process_batch_results out "json-response" resCE8)
      ≠ process_batch_results dfCE8 "json-response" resCE8 := by decide

/-- C8 witness: idempotence at the concrete table `dfW` (first column `id`)
and result list `resW`. -/
theorem projector_idempotent_witness :
    (process_batch_results dfW "id" resW).bind
        (fun out => process_batch_results out "id" resW)
      = process_batch_results dfW "id" resW :=
  projector_idempotent dfW "id" resW (by decide) (by decide)

theorem lookup_map_keyed (us : List String) (f : String → Int × Json)
    (u : String) (hu : u ∈ us) :
    List.lookup u (us.map (fun v => (v, (f v).1, (f v).2)))
      = some ((f u).1, (f u).2) := by
  induction us with
  | nil => simp at hu
  | cons v t ih =>
      rw [List.map_cons]
      by_cases hbe : (u == v) = true
      · have heq := eq_of_beq hbe
        subst heq
        simp [List.lookup]
      · have hbf : (u == v) = false := Bool.of_not_eq_true hbe
        have hut : u ∈ t := by
          rcases List.mem_cons.mp hu with h | h
          · exact absurd (by rw [h]; simp) hbe
          · exact h
        simp only [List.lookup, hbf]
        exact ih hut

/-- C10: the dispatched identifiers are the first-column values converted to
string and stripped (empty ones filtered), and the projector keys each row by
the same stripped value, so a row whose cell differs from a looked-up
identifier only by surrounding whitespace receives that identifier's result;
an identifier matching none of the dispatched identifiers exactly (string
equality, hence case-sensitively) receives all-empty derived fields. -/
theorem row_matching_strips_whitespace (cells : List Json)
    (f : String → Int × Json) (c : Json)
    (hmem : c ∈ cells) (hne : pyStrip (pyStr c) ≠ "") :
    pyStrip (pyStr c) ∈ dispatch_uens cells
    ∧ List.lookup (pyStrip (pyStr c))
        (out_mapOf ((dispatch_uens cells).map (fun u => (u, (f u).1, (f u).2))))
        = some ((f (pyStrip (pyStr c))).1, (f (pyStrip (pyStr c))).2)
    ∧ ∀ u' : String, (∀ v ∈ dispatch_uens cells, v ≠ u') →
        extract_row (out_mapOf ((dispatch_uens cells).map
            (fun u => (u, (f u).1, (f u).2)))) u'
          = .ok (.str "", .str "", "") := by
  have hmem' : pyStrip (pyStr c) ∈ dispatch_uens cells := by
    unfold dispatch_uens
    apply List.mem_filter.mpr
    refine ⟨List.mem_map_of_mem _ hmem, ?_⟩
    simp [hne]
  refine ⟨hmem', ?_, ?_⟩
  · rw [lookup_out_mapOf]
    exact lookup_map_keyed _ f _ hmem'
  · intro u' hu'
    apply extract_row_of_lookup_none
    rw [lookup_out_mapOf]
    apply lookup_eq_none_of_fresh
    intro r hr
    rcases List.mem_map.mp hr with ⟨v, hv, rfl⟩
    exact hu' v hv

/-- C10 witness: the cell `" ab "` is dispatched as `ab` and its row receives
the result looked up for `ab`. -/
theorem row_matching_strips_whitespace_witness :
    pyStrip (pyStr (Json.str " ab ")) ∈ dispatch_uens [Json.str " ab "]
    ∧ List.lookup (pyStrip (pyStr (Json.str " ab ")))
        (out_mapOf ((dispatch_uens [Json.str " ab "]).map
          (fun u => (u, (oracleW u).1, (oracleW u).2))))
      = some ((oracleW (pyStrip (pyStr (Json.str " ab ")))).1,
          (oracleW (pyStrip (pyStr (Json.str " ab ")))).2)
    ∧ ∀ u' : String, (∀ v ∈ dispatch_uens [Json.str " ab "], v ≠ u') →
        extract_row (out_mapOf ((dispatch_uens [Json.str " ab "]).map
            (fun u => (u, (oracleW u).1, (oracleW u).2)))) u'
          = .ok (.str "", .str "", "") :=
  row_matching_strips_whitespace [Json.str " ab "] oracleW (Json.str " ab ")
    (by decide) (by decide)
